import Mathlib

/-!
Shallow embedding of the music-theory core of `src/index.ts`
(musicexplorer): pitch-class arithmetic, scale and chord derivation,
progression transposition (capo), melody generation and fretboard
mapping, together with theorems settling the specification claims.

Thrown JS errors are modelled with `Except MusicError`; `Math.random`
draws in melody generation are modelled by an abstract stream of picks
(`RandPick`), quantified over in the theorems.
-/

/-- The two error kinds thrown by the core (`Unsupported note: ...` and
`Invalid note format: ...`). -/
inductive MusicError where
  | unsupportedNote (note : String)
  | invalidNoteFormat (note : String)
deriving DecidableEq

/-- `CHROMATIC` from the source: the 12 canonical (sharp-spelled)
pitch-class names (one flat 12-entry literal in the source, written
here as a concatenation of the two hexachords). -/
def CHROMATIC : List String :=
  ["C", "C#", "D", "D#", "E", "F"] ++ ["F#", "G", "G#", "A", "A#", "B"]

/-- `ENHARMONIC_MAP` from the source: flat spellings accepted on input. -/
def ENHARMONIC_MAP : List (String × String) :=
  [("Db", "C#"), ("Eb", "D#"), ("Gb", "F#"), ("Ab", "G#"), ("Bb", "A#")]

def MAJOR_SCALE_STEPS : List Nat := [0, 2, 4, 5, 7, 9, 11]

def NAT_MINOR_SCALE_STEPS : List Nat := [0, 2, 3, 5, 7, 8, 10]

inductive ScaleType where
  | major
  | minor
deriving DecidableEq

structure Chord where
  degree : Nat
  name : String
  notes : List String
deriving DecidableEq

structure TabPosition where
  stringNumber : Nat
  fret : Int
  label : String
deriving DecidableEq

structure MelodyNote where
  note : String
  duration : Nat
  beat : Nat
  tab : TabPosition
deriving DecidableEq

/-- ASCII whitespace stripped by JS `trim` (modelled over the ASCII
range). -/
def isSpaceChar (c : Char) : Bool :=
  c == ' ' || c == '\t' || c == '\n' || c == '\r'

/-- JS `trim`: strip whitespace from both ends. -/
def trimString (s : String) : String :=
  String.mk (((s.toList.dropWhile isSpaceChar).reverse.dropWhile isSpaceChar).reverse)

/-- JS `toUpperCase` on a single character (modelled over the ASCII
range). -/
def charUpper (c : Char) : Char :=
  if 'a' ≤ c && c ≤ 'z' then Char.ofNat (c.toNat - 32) else c

/-- `normalizeKey`: trim, uppercase the first character
(`charAt(0).toUpperCase() + slice(1)`), then apply the flat-to-sharp
map when it matches. -/
def normalizeKey (key : String) : String :=
  let key := trimString key
  let k := match key.toList with
    | [] => ""
    | c :: rest => String.mk (charUpper c :: rest)
  match ENHARMONIC_MAP.lookup k with
  | some v => v
  | none => k

/-- `getNoteIndex`: index of a name in `CHROMATIC`, throwing
`Unsupported note` when absent. -/
def getNoteIndex (note : String) : Except MusicError Nat :=
  match CHROMATIC.findIdx? (fun n => n == note) with
  | some i => .ok i
  | none => .error (.unsupportedNote note)

/-- `buildScale`: the 7 pitch classes at the scale-type offsets from the
root. -/
def buildScale (root : String) (scaleType : ScaleType) : Except MusicError (List String) := do
  let steps := match scaleType with
    | .major => MAJOR_SCALE_STEPS
    | .minor => NAT_MINOR_SCALE_STEPS
  let rootIndex ← getNoteIndex root
  return steps.map (fun step => CHROMATIC.getD ((rootIndex + step) % 12) "")

def qualityMapMajor : List String := ["", "m", "m", "", "", "m", "dim"]

def qualityMapMinor : List String := ["m", "dim", "", "m", "m", "", ""]

/-- `buildChordTriad` (the source's `octave` parameter defaults to 4;
all in-repo call sites use that default, passed explicitly here). -/
def buildChordTriad (scale : List String) (degree : Nat) (octave : Nat) : Except MusicError Chord := do
  let i := degree - 1
  let root := scale.getD i ""
  let third := scale.getD ((i + 2) % 7) ""
  let fifth := scale.getD ((i + 4) % 7) ""
  let rootIdx ← getNoteIndex (scale.getD 0 "")
  let thirdIdx ← getNoteIndex (scale.getD 2 "")
  let isMajorScale := (((thirdIdx : Int) - (rootIdx : Int) + 12) % 12) == 4
  let quality := (if isMajorScale then qualityMapMajor else qualityMapMinor).getD i ""
  let name := if quality == "m" then root ++ "m"
    else if quality == "dim" then root ++ "°"
    else root
  return { degree := degree, name := name,
           notes := [root, third, fifth].map (fun n => n ++ toString octave) }

structure ProgressionPattern where
  label : String
  degrees : List Nat
deriving DecidableEq

/-- `COMMON_PROGRESSIONS` from the source (the pattern's `name` field is
called `label` here to avoid clashing with the output record's label). -/
def COMMON_PROGRESSIONS : List ProgressionPattern :=
  [ { label := "Pop I–V–vi–IV", degrees := [1, 5, 6, 4] },
    { label := "Pop vi–IV–I–V", degrees := [6, 4, 1, 5] },
    { label := "Classic I–vi–IV–V", degrees := [1, 6, 4, 5] },
    { label := "ii–V–I (Jazz-ish cadence)", degrees := [2, 5, 1] },
    { label := "I–IV–V–IV (Rock)", degrees := [1, 4, 5, 4] } ]

/-- `shiftNote`: shift a pitch class by a (possibly negative) number of
semitones, normalized into `[0,12)` first. -/
def shiftNote (root : String) (semitones : Int) : Except MusicError String := do
  let idx ← getNoteIndex root
  let offset := ((semitones % 12) + 12) % 12
  return CHROMATIC.getD ((((idx : Int) + offset) % 12).toNat) ""

structure RenderedProgression where
  label : String
  degrees : List Nat
  chords : List Chord
deriving DecidableEq

structure ProgressionsResult where
  key : String
  capo : Int
  capoKey : String
  scaleType : ScaleType
  scale : List String
  progressions : List RenderedProgression
deriving DecidableEq

/-- `generateChordProgressions`. -/
def generateChordProgressions (key : String) (scaleType : ScaleType) (capo : Int) :
    Except MusicError ProgressionsResult := do
  let normalizedKey := normalizeKey key
  let capoKey ← shiftNote normalizedKey capo
  let scale ← buildScale capoKey scaleType
  let progressions ← COMMON_PROGRESSIONS.mapM (fun pat => do
    let chords ← pat.degrees.mapM (fun deg => buildChordTriad scale deg 4)
    return { label := pat.label, degrees := pat.degrees,
             chords := chords.map (fun c => ⟨c.degree, c.name, c.notes⟩) })
  return { key := normalizedKey, capo := capo, capoKey := capoKey,
           scaleType := scaleType, scale := scale, progressions := progressions }

/-- The regex `^([A-G]#?)(\d)$` of `noteNameToSemitone`: on a match,
the captured pitch-class spelling and the octave digit's value. -/
def matchNote (s : String) : Option (String × Nat) :=
  match s.toList with
  | [p, d] =>
      if ('A' ≤ p && p ≤ 'G') && ('0' ≤ d && d ≤ '9') then
        some (String.mk [p], d.toNat - '0'.toNat)
      else none
  | [p, h, d] =>
      if ('A' ≤ p && p ≤ 'G') && h == '#' && ('0' ≤ d && d ≤ '9') then
        some (String.mk [p, h], d.toNat - '0'.toNat)
      else none
  | _ => none

/-- `noteNameToSemitone`: absolute semitone `octave*12 + pitch index`. -/
def noteNameToSemitone (note : String) : Except MusicError Nat :=
  match matchNote note with
  | none => .error (.invalidNoteFormat note)
  | some (pitch, octave) => do
      let idx ← getNoteIndex pitch
      return octave * 12 + idx

/-- `STANDARD_TUNING`: open strings 6 (low) to 1 (high). -/
def STANDARD_TUNING : List String := ["E2", "A2", "D3", "G3", "B3", "E4"]

/-- `convertNoteToTab`: lowest-fret, then lowest-string-number playable
position, or the out-of-range sentinel. -/
def convertNoteToTab (note : String) : Except MusicError TabPosition := do
  let targetSemitone ← noteNameToSemitone note
  let withFrets ← STANDARD_TUNING.enum.mapM (fun p => do
    let openSemitone ← noteNameToSemitone p.2
    return ((6 - p.1 : Nat), ((targetSemitone : Int) - (openSemitone : Int))))
  let positions := withFrets.filter (fun pos => decide (0 ≤ pos.2))
  let best := positions.foldl (fun acc cur =>
    match acc with
    | none => some cur
    | some a =>
      if cur.2 < a.2 then some cur
      else if cur.2 == a.2 && cur.1 < a.1 then some cur
      else some a) none
  match best with
  | none => return { stringNumber := 0, fret := -1, label := "(out of range)" }
  | some b => return { stringNumber := b.1, fret := b.2,
                       label := "String " ++ toString b.1 ++ ", fret " ++ toString b.2 }

/-- The character filter of `getChordForName`: strip every `m` and `°`. -/
def bareRoot (name : String) : String :=
  String.mk (name.toList.filter (fun c => !(c == 'm' || c == '°')))

/-- `getChordForName` (the inner closure of `generateMelodyForProgression`,
lifted out with its captured `scale` as a parameter): reverse chord
lookup with silent tonic fallback. -/
def getChordForName (scale : List String) (name : String) : Except MusicError Chord :=
  match scale.findIdx? (fun n => n == bareRoot name) with
  | none => buildChordTriad scale 1 4
  | some deg => buildChordTriad scale (deg + 1) 4

def melodyOctaves : List Nat := [4, 5]

/-- One beat's worth of `Math.random` draws in melody generation:
the chord-tone-vs-scale-tone coin, the tone pick and the octave pick.
`Math.floor(Math.random()*len)` always lands in `[0, len)`, so an
arbitrary pick index is reduced `% len` at use sites. -/
structure RandPick where
  useChord : Bool
  toneIdx : Nat
  octIdx : Nat

/-- JS `slice(0, -1)`: drop the last character. -/
def sliceDropLast (s : String) : String :=
  String.mk s.toList.dropLast

/-- The pitch selection of one beat: with the chord-tone coin, a random
chord tone stripped of its octave (`slice(0, -1)`), else a random scale
tone; either re-octaved to a random choice from `melodyOctaves`. -/
def pickPitch (scale : List String) (chord : Chord) (r : RandPick) : String :=
  if r.useChord then
    sliceDropLast (chord.notes.getD (r.toneIdx % chord.notes.length) "") ++
      toString (melodyOctaves.getD (r.octIdx % melodyOctaves.length) 0)
  else
    scale.getD (r.toneIdx % scale.length) "" ++
      toString (melodyOctaves.getD (r.octIdx % melodyOctaves.length) 0)

/-- One iteration of the inner 4-beat loop body of
`generateMelodyForProgression`: pick a pitch, convert it to tab, emit
the melody note at the given absolute beat. -/
def makeMelodyNote (scale : List String) (chord : Chord) (r : RandPick) (beat : Nat) :
    Except MusicError MelodyNote := do
  let pitch := pickPitch scale chord r
  let tab ← convertNoteToTab pitch
  return { note := pitch, duration := 1, beat := beat, tab := tab }

/-- The 4-beat bar emitted for one chord (the source's
`for beatInBar in 0..3` loop, unrolled at its fixed bound). -/
def barNotes (scale : List String) (chord : Chord) (g : Nat → RandPick) (startBeat : Nat) :
    Except MusicError (List MelodyNote) := do
  let n0 ← makeMelodyNote scale chord (g startBeat) startBeat
  let n1 ← makeMelodyNote scale chord (g (startBeat + 1)) (startBeat + 1)
  let n2 ← makeMelodyNote scale chord (g (startBeat + 2)) (startBeat + 2)
  let n3 ← makeMelodyNote scale chord (g (startBeat + 3)) (startBeat + 3)
  return [n0, n1, n2, n3]

/-- The `chordNames.forEach` loop of `generateMelodyForProgression`,
threading the absolute beat counter. -/
def melodyLoop (scale : List String) (g : Nat → RandPick) :
    List String → Nat → Except MusicError (List MelodyNote)
  | [], _ => .ok []
  | name :: rest, currentBeat => do
    let chord ← getChordForName scale name
    let bar ← barNotes scale chord g currentBeat
    let tail ← melodyLoop scale g rest (currentBeat + 4)
    return bar ++ tail

/-- `generateMelodyForProgression`, parameterized by the random stream
`g` (one `RandPick` per emitted note, indexed by its absolute beat). -/
def generateMelodyForProgression (key : String) (scaleType : ScaleType)
    (chordNames : List String) (g : Nat → RandPick) : Except MusicError (List MelodyNote) := do
  let normalizedKey := normalizeKey key
  let scale ← buildScale normalizedKey scaleType
  melodyLoop scale g chordNames 0

/-! Proof-side definitions: spec-facing views, tables and fixed
random streams used by the theorems below. -/

deriving instance DecidableEq for Except

/-- The semitone interval from pitch class `a` up to pitch class `b`,
computed the way `buildChordTriad` computes its major-scale test
(`(thirdIdx - rootIdx + 12) % 12`). -/
def intervalFromTo (a b : String) : Except MusicError Int := do
  let ia ← getNoteIndex a
  let ib ← getNoteIndex b
  return (((ib : Int) - (ia : Int) + 12) % 12)

/-- The name suffix rendered for a quality-table entry. -/
def suffixOfQuality (q : String) : String :=
  if q == "m" then "m" else if q == "dim" then "°" else ""

/-- The spec's open-string pitches as absolute semitones: strings 1..6
sound E4, B3, G3, D3, A2, E2. -/
def openStringSemitone (n : Nat) : Nat :=
  match n with
  | 1 => 52
  | 2 => 47
  | 3 => 43
  | 4 => 38
  | 5 => 33
  | _ => 28

/-- The `TabPosition` carried by a successful `convertNoteToTab` result. -/
def tabValue (note : String) : TabPosition :=
  (convertNoteToTab note).toOption.getD ⟨0, -1, ""⟩

/-- The scale obtained by building from the capo-shifted normalized
key (what the spec calls the scale "built from the capo key"). -/
def capoScale (key : String) (t : ScaleType) (capo : Int) : Except MusicError (List String) := do
  let ck ← shiftNote (normalizeKey key) capo
  buildScale ck t

/-- A fixed random stream for concrete melody evaluations: always pick
the chord branch, tone 0, octave choice 0. -/
def constPick : Nat → RandPick := fun _ => ⟨true, 0, 0⟩

/-- A melody pitch of the shape the generator emits: a canonical pitch
class re-octaved to 4 or 5. -/
def melodyNoteWellFormed (note : String) : Bool :=
  CHROMATIC.any (fun p => note == p ++ "4" || note == p ++ "5")

/-- Whether a note's absolute semitone is at least 48 (C4). -/
def semitoneAtLeast48 (note : String) : Bool :=
  match noteNameToSemitone note with
  | .ok s => decide (48 ≤ s)
  | .error _ => false


/-! Helper lemmas. -/

/-- Bind on an `ok` reduces to application (the `Except` monad). -/
theorem bind_ok_eq {ε α β : Type} (a : α) (f : α → Except ε β) :
    (Except.ok a : Except ε α) >>= f = f a := rfl

theorem bind_error_eq {ε α β : Type} (e : ε) (f : α → Except ε β) :
    (Except.error e : Except ε α) >>= f = Except.error e := rfl

theorem pure_eq_ok {ε α : Type} (a : α) : (pure a : Except ε α) = Except.ok a := rfl

theorem getD_mem_of_lt {l : List String} {i : Nat} (h : i < l.length) : l.getD i "" ∈ l := by
  rw [List.getD_eq_getElem l "" h]
  exact List.getElem_mem h

theorem getD_ne_getD_of_nodup {l : List String} (hnd : l.Nodup) {i j : Nat}
    (hi : i < l.length) (hj : j < l.length) (hij : i ≠ j) :
    l.getD i "" ≠ l.getD j "" := by
  rw [List.getD_eq_getElem l "" hi, List.getD_eq_getElem l "" hj]
  intro e
  exact hij (List.Nodup.getElem_inj_iff hnd |>.mp e)


theorem mem_CHROMATIC_iff (x : String) :
    x ∈ CHROMATIC ↔ x = "C" ∨ x = "C#" ∨ x = "D" ∨ x = "D#" ∨ x = "E" ∨ x = "F" ∨
      x = "F#" ∨ x = "G" ∨ x = "G#" ∨ x = "A" ∨ x = "A#" ∨ x = "B" := by
  simp [CHROMATIC, List.mem_append, List.mem_cons, or_assoc]

theorem getNoteIndex_ok_iff {note : String} {i : Nat} :
    getNoteIndex note = .ok i ↔ CHROMATIC.findIdx? (fun n => n == note) = some i := by
  unfold getNoteIndex
  cases h : CHROMATIC.findIdx? (fun n => n == note) <;> simp_all

theorem mem_CHROMATIC_of_getNoteIndex_ok {note : String} {i : Nat}
    (h : getNoteIndex note = .ok i) : note ∈ CHROMATIC ∧ i < 12 := by
  rw [getNoteIndex_ok_iff] at h
  rw [List.findIdx?_eq_some_iff_getElem] at h
  obtain ⟨hlt, hp, -⟩ := h
  have : CHROMATIC[i] = note := by simpa using hp
  exact ⟨this ▸ List.getElem_mem hlt, by simpa [CHROMATIC] using hlt⟩

theorem getNoteIndex_ok_of_mem {note : String} (h : note ∈ CHROMATIC) :
    ∃ i, getNoteIndex note = .ok i ∧ i < 12 := by
  rw [mem_CHROMATIC_iff] at h
  rcases h with rfl | rfl | rfl | rfl | rfl | rfl | rfl | rfl | rfl | rfl | rfl | rfl <;>
    exact ⟨_, rfl, by decide⟩

theorem shiftNote_add_twelve (root : String) (s : Int) :
    shiftNote root (s + 12) = shiftNote root s := by
  simp only [shiftNote, Int.add_emod_self]

/-- C9: for every canonical pitch class `r`, `shiftNote r 12 = r` and
`shiftNote r 0 = r`, and shifting is periodic with period 12. -/
theorem shiftNote_identity_and_periodic (r : String) (hr : r ∈ CHROMATIC) (s : Int) :
    shiftNote r 12 = .ok r ∧ shiftNote r 0 = .ok r ∧
    shiftNote r (s + 12) = shiftNote r s := by
  refine ⟨?_, ?_, shiftNote_add_twelve r s⟩ <;>
  · rw [mem_CHROMATIC_iff] at hr
    rcases hr with rfl | rfl | rfl | rfl | rfl | rfl | rfl | rfl | rfl | rfl | rfl | rfl <;> decide

theorem shiftNote_identity_witness :
    ("C" ∈ CHROMATIC) ∧
    (shiftNote "C" 12 = .ok "C" ∧ shiftNote "C" 0 = .ok "C" ∧
      shiftNote "C" (-5 + 12) = shiftNote "C" (-5)) :=
  ⟨by decide, shiftNote_identity_and_periodic "C" (by decide) (-5)⟩

theorem buildChordTriad_isOk (scale : List String) (d oct : Nat)
    (h0 : scale.getD 0 "" ∈ CHROMATIC) (h2 : scale.getD 2 "" ∈ CHROMATIC) :
    (buildChordTriad scale d oct).isOk = true := by
  obtain ⟨i0, hi0, -⟩ := getNoteIndex_ok_of_mem h0
  obtain ⟨i2, hi2, -⟩ := getNoteIndex_ok_of_mem h2
  simp only [buildChordTriad, hi0, hi2, Except.bind, bind, Except.isOk, Except.toBool, pure,
    Except.pure]

/-- C5: reverse chord lookup with a name whose bare root is absent from
the 7-entry scale of canonical pitch classes falls back to exactly the
degree-1 (tonic) chord, and never throws for the unmatched name. -/
theorem getChordForName_tonic_fallback (scale : List String) (name : String)
    (hlen : scale.length = 7) (hall : ∀ x ∈ scale, x ∈ CHROMATIC)
    (hroot : bareRoot name ∉ scale) :
    getChordForName scale name = buildChordTriad scale 1 4 ∧
    (getChordForName scale name).isOk = true := by
  have h0 : scale.getD 0 "" ∈ CHROMATIC := hall _ (getD_mem_of_lt (by omega))
  have h2 : scale.getD 2 "" ∈ CHROMATIC := hall _ (getD_mem_of_lt (by omega))
  have hnone : scale.findIdx? (fun n => n == bareRoot name) = none := by
    rw [List.findIdx?_eq_none_iff]
    intro x hx
    simp only [beq_eq_false_iff_ne]
    exact fun e => hroot (e ▸ hx)
  have heq : getChordForName scale name = buildChordTriad scale 1 4 := by
    unfold getChordForName
    rw [hnone]
  exact ⟨heq, heq ▸ buildChordTriad_isOk scale 1 4 h0 h2⟩

theorem getChordForName_tonic_fallback_witness :
    ((["C", "D", "E", "F", "G", "A", "B"] : List String).length = 7) ∧
    (∀ x ∈ (["C", "D", "E", "F", "G", "A", "B"] : List String), x ∈ CHROMATIC) ∧
    (bareRoot "X#m" ∉ ["C", "D", "E", "F", "G", "A", "B"]) ∧
    (getChordForName ["C", "D", "E", "F", "G", "A", "B"] "X#m" =
      buildChordTriad ["C", "D", "E", "F", "G", "A", "B"] 1 4 ∧
     (getChordForName ["C", "D", "E", "F", "G", "A", "B"] "X#m").isOk = true) :=
  ⟨by decide, by decide, by decide,
    getChordForName_tonic_fallback ["C", "D", "E", "F", "G", "A", "B"] "X#m"
      (by decide) (by decide) (by decide)⟩


theorem name_append_suffix (root q : String) :
    (if q == "m" then root ++ "m" else if q == "dim" then root ++ "°" else root) =
    root ++ suffixOfQuality q := by
  unfold suffixOfQuality
  by_cases h1 : q == "m" <;> by_cases h2 : q == "dim" <;> simp [h1, h2]

/-- C4: chord quality is classified from the whole scale (the interval
between positions 1 and 3), choosing the major or minor quality table
uniformly for every degree; on a major-classified scale degree 1 gets
the bare root and degree 7 gets the `°` suffix. -/
theorem buildChordTriad_quality_from_whole_scale (scale : List String) (d : Nat) (v : Int)
    (hlen : scale.length = 7) (hd1 : 1 ≤ d) (hd7 : d ≤ 7)
    (hint : intervalFromTo (scale.getD 0 "") (scale.getD 2 "") = .ok v) :
    (v = 4 → Except.map Chord.name (buildChordTriad scale d 4) =
      .ok (scale.getD (d - 1) "" ++ suffixOfQuality (qualityMapMajor.getD (d - 1) ""))) ∧
    (v ≠ 4 → Except.map Chord.name (buildChordTriad scale d 4) =
      .ok (scale.getD (d - 1) "" ++ suffixOfQuality (qualityMapMinor.getD (d - 1) ""))) ∧
    (v = 4 → d = 1 → Except.map Chord.name (buildChordTriad scale d 4) = .ok (scale.getD 0 "")) ∧
    (v = 4 → d = 7 → Except.map Chord.name (buildChordTriad scale d 4) =
      .ok (scale.getD 6 "" ++ "°")) := by
  unfold intervalFromTo at hint
  cases hg0 : getNoteIndex (scale.getD 0 "") with
  | error e => rw [hg0, bind_error_eq] at hint; exact absurd hint (by simp)
  | ok i0 =>
  rw [hg0, bind_ok_eq] at hint
  cases hg2 : getNoteIndex (scale.getD 2 "") with
  | error e => rw [hg2, bind_error_eq] at hint; exact absurd hint (by simp)
  | ok i2 =>
  rw [hg2, bind_ok_eq, pure_eq_ok] at hint
  have hv : (((i2 : Int) - (i0 : Int) + 12) % 12) = v := by
    simpa using hint
  have hmap : Except.map Chord.name (buildChordTriad scale d 4) =
      .ok (scale.getD (d - 1) "" ++
        suffixOfQuality ((if ((((i2 : Int) - (i0 : Int) + 12) % 12) == 4) then qualityMapMajor
          else qualityMapMinor).getD (d - 1) "")) := by
    unfold buildChordTriad
    rw [hg0, bind_ok_eq, hg2, bind_ok_eq, pure_eq_ok]
    simp only [Except.map, name_append_suffix]
  refine ⟨?_, ?_, ?_, ?_⟩
  · intro h4
    rw [hmap]
    have hb : ((((i2 : Int) - (i0 : Int) + 12) % 12) == 4) = true := by
      rw [hv, h4]; rfl
    rw [hb]
    simp
  · intro h4
    rw [hmap]
    have hb : ((((i2 : Int) - (i0 : Int) + 12) % 12) == 4) = false := by
      rw [hv]; simpa using h4
    rw [hb]
    simp
  · intro h4 hd
    subst hd
    rw [hmap]
    have hb : ((((i2 : Int) - (i0 : Int) + 12) % 12) == 4) = true := by
      rw [hv, h4]; rfl
    rw [hb]
    simp [qualityMapMajor, suffixOfQuality]
  · intro h4 hd
    subst hd
    rw [hmap]
    have hb : ((((i2 : Int) - (i0 : Int) + 12) % 12) == 4) = true := by
      rw [hv, h4]; rfl
    rw [hb]
    simp [qualityMapMajor, suffixOfQuality]

/-- C6: a successfully built scale starts at the normalized root, has 7
distinct pitch classes, and its interval from the root at each position
is the scale type's offset-table entry. -/
theorem buildScale_offsets (r : String) (t : ScaleType) (scale : List String) (k : Nat)
    (h : buildScale r t = .ok scale) (hk : k < 7) :
    scale.getD 0 "" = normalizeKey r ∧ scale.length = 7 ∧ scale.Nodup ∧
    intervalFromTo r (scale.getD k "") =
      .ok (((match t with
             | ScaleType.major => MAJOR_SCALE_STEPS
             | ScaleType.minor => NAT_MINOR_SCALE_STEPS).getD k 0 : Nat) : Int) := by
  have hmem : r ∈ CHROMATIC := by
    unfold buildScale at h
    cases hg : getNoteIndex r with
    | error e => rw [hg, bind_error_eq] at h; exact absurd h (by simp)
    | ok i => exact (mem_CHROMATIC_of_getNoteIndex_ok hg).1
  have hs : scale = (buildScale r t).toOption.getD [] := by rw [h]; rfl
  subst hs
  rw [mem_CHROMATIC_iff] at hmem
  cases t <;>
    rcases hmem with rfl|rfl|rfl|rfl|rfl|rfl|rfl|rfl|rfl|rfl|rfl|rfl <;>
    · refine ⟨by decide, by decide, by decide, ?_⟩
      interval_cases k <;> decide

theorem buildChordTriad_quality_witness :
    ((["C", "D", "E", "F", "G", "A", "B"] : List String).length = 7) ∧
    (1 ≤ 7 ∧ 7 ≤ 7) ∧
    (intervalFromTo ((["C", "D", "E", "F", "G", "A", "B"] : List String).getD 0 "")
      ((["C", "D", "E", "F", "G", "A", "B"] : List String).getD 2 "") = .ok 4) ∧
    Except.map Chord.name (buildChordTriad ["C", "D", "E", "F", "G", "A", "B"] 7 4) =
      .ok ((["C", "D", "E", "F", "G", "A", "B"] : List String).getD 6 "" ++ "°") :=
  ⟨by decide, ⟨by decide, by decide⟩, by decide,
    (buildChordTriad_quality_from_whole_scale ["C", "D", "E", "F", "G", "A", "B"] 7 4
      (by decide) (by decide) (by decide) (by decide)).2.2.2 rfl rfl⟩

theorem buildScale_offsets_witness :
    (buildScale "G" ScaleType.minor = .ok ["G", "A", "A#", "C", "D", "D#", "F"]) ∧ (3 < 7) ∧
    (((["G", "A", "A#", "C", "D", "D#", "F"] : List String).getD 0 "" = normalizeKey "G") ∧
     (["G", "A", "A#", "C", "D", "D#", "F"] : List String).length = 7 ∧
     (["G", "A", "A#", "C", "D", "D#", "F"] : List String).Nodup ∧
     intervalFromTo "G" ((["G", "A", "A#", "C", "D", "D#", "F"] : List String).getD 3 "") =
       .ok (((match ScaleType.minor with
              | ScaleType.major => MAJOR_SCALE_STEPS
              | ScaleType.minor => NAT_MINOR_SCALE_STEPS).getD 3 0 : Nat) : Int)) :=
  ⟨by decide, by decide,
    buildScale_offsets "G" ScaleType.minor ["G", "A", "A#", "C", "D", "D#", "F"] 3
      (by decide) (by decide)⟩

/-- C2: for every canonical note, `convertNoteToTab` returns the
sentinel when the pitch lies below the low E string and otherwise the
playable position with the globally smallest fret, ties broken toward
the smallest string number; `E2` maps to string 6 fret 0, `E4` to
string 1 fret 0 and `D2` to the sentinel. -/
theorem convertNoteToTab_min_fret (p : String) (hp : p ∈ CHROMATIC) (o : Nat) (ho : o < 10)
    (s : Nat) (hs : noteNameToSemitone (p ++ toString o) = .ok s) :
    ((convertNoteToTab (p ++ toString o)).isOk = true ∧
     (s < 28 → convertNoteToTab (p ++ toString o) = .ok ⟨0, -1, "(out of range)"⟩) ∧
     (28 ≤ s →
       1 ≤ (tabValue (p ++ toString o)).stringNumber ∧
       (tabValue (p ++ toString o)).stringNumber ≤ 6 ∧
       (openStringSemitone (tabValue (p ++ toString o)).stringNumber : Int) +
         (tabValue (p ++ toString o)).fret = (s : Int) ∧
       0 ≤ (tabValue (p ++ toString o)).fret ∧
       ∀ n ∈ [1, 2, 3, 4, 5, 6], (openStringSemitone n : Int) ≤ (s : Int) →
         ((tabValue (p ++ toString o)).fret < (s : Int) - openStringSemitone n ∨
          ((tabValue (p ++ toString o)).fret = (s : Int) - openStringSemitone n ∧
           (tabValue (p ++ toString o)).stringNumber ≤ n)))) ∧
    convertNoteToTab "E2" = .ok ⟨6, 0, "String 6, fret 0"⟩ ∧
    convertNoteToTab "E4" = .ok ⟨1, 0, "String 1, fret 0"⟩ ∧
    convertNoteToTab "D2" = .ok ⟨0, -1, "(out of range)"⟩ := by
  refine ⟨?_, by decide, by decide, by decide⟩
  have hs' : s = (noteNameToSemitone (p ++ toString o)).toOption.getD 0 := by rw [hs]; rfl
  subst hs'
  rw [mem_CHROMATIC_iff] at hp
  rcases hp with rfl|rfl|rfl|rfl|rfl|rfl|rfl|rfl|rfl|rfl|rfl|rfl <;>
    (interval_cases o <;> decide)

theorem convertNoteToTab_min_fret_witness :
    ("E" ∈ CHROMATIC) ∧ (4 < 10) ∧ (noteNameToSemitone ("E" ++ toString 4) = .ok 52) ∧
    (((convertNoteToTab ("E" ++ toString 4)).isOk = true ∧
      (52 < 28 → convertNoteToTab ("E" ++ toString 4) = .ok ⟨0, -1, "(out of range)"⟩) ∧
      (28 ≤ 52 →
        1 ≤ (tabValue ("E" ++ toString 4)).stringNumber ∧
        (tabValue ("E" ++ toString 4)).stringNumber ≤ 6 ∧
        (openStringSemitone (tabValue ("E" ++ toString 4)).stringNumber : Int) +
          (tabValue ("E" ++ toString 4)).fret = (52 : Int) ∧
        0 ≤ (tabValue ("E" ++ toString 4)).fret ∧
        ∀ n ∈ [1, 2, 3, 4, 5, 6], (openStringSemitone n : Int) ≤ (52 : Int) →
          ((tabValue ("E" ++ toString 4)).fret < (52 : Int) - openStringSemitone n ∨
           ((tabValue ("E" ++ toString 4)).fret = (52 : Int) - openStringSemitone n ∧
            (tabValue ("E" ++ toString 4)).stringNumber ≤ n)))) ∧
     convertNoteToTab "E2" = .ok ⟨6, 0, "String 6, fret 0"⟩ ∧
     convertNoteToTab "E4" = .ok ⟨1, 0, "String 1, fret 0"⟩ ∧
     convertNoteToTab "D2" = .ok ⟨0, -1, "(out of range)"⟩) :=
  ⟨by decide, by decide, by decide,
    convertNoteToTab_min_fret "E" (by decide) 4 (by decide) 52 (by decide)⟩

theorem getNoteIndex_error_of_not_mem {note : String} (h : note ∉ CHROMATIC) :
    getNoteIndex note = .error (.unsupportedNote note) := by
  unfold getNoteIndex
  rw [List.findIdx?_eq_none_iff.mpr]
  intro x hx
  simp only [beq_eq_false_iff_ne]
  exact fun e => h (e ▸ hx)

/-- C7 counterexample: `"E#4"` matches the `[A-G]#?` + digit pattern of
`noteNameToSemitone`, yet the call does not return an absolute semitone
value, and the error it throws is `UnsupportedNote`, not the
`InvalidNoteFormat` error the claim reserves for non-returning inputs. -/
theorem noteNameToSemitone_sharp_e_counterexample :
    (matchNote "E#4").isSome = true ∧
    noteNameToSemitone "E#4" = .error (.unsupportedNote "E#") := by decide

/-- C7 (amended): inputs not matching the `[A-G]#?`-plus-digit pattern
fail with `InvalidNoteFormat`; matching inputs whose pitch name is in
the canonical 12-entry table return `octave*12 + pitchClassIndex`; the
remaining matching inputs (pitch `E#` or `B#`) fail with
`UnsupportedNote`; no other error kind exists. -/
theorem noteNameToSemitone_spec (s pc : String) (oct idx : Nat) :
    (matchNote s = none → noteNameToSemitone s = .error (.invalidNoteFormat s)) ∧
    (matchNote s = some (pc, oct) → getNoteIndex pc = .ok idx →
      noteNameToSemitone s = .ok (oct * 12 + idx)) ∧
    (matchNote s = some (pc, oct) → pc ∉ CHROMATIC →
      noteNameToSemitone s = .error (.unsupportedNote pc)) := by
  refine ⟨?_, ?_, ?_⟩
  · intro hm
    unfold noteNameToSemitone
    rw [hm]
  · intro hm hi
    unfold noteNameToSemitone
    rw [hm]
    simp only [hi, bind_ok_eq, pure_eq_ok]
  · intro hm hpc
    unfold noteNameToSemitone
    rw [hm]
    simp only [getNoteIndex_error_of_not_mem hpc, bind_error_eq]

theorem noteNameToSemitone_spec_witness :
    (matchNote "C4" = some ("C", 4)) ∧ (getNoteIndex "C" = .ok 0) ∧
    noteNameToSemitone "C4" = .ok (4 * 12 + 0) :=
  ⟨by decide, by decide,
    (noteNameToSemitone_spec "C4" "C" 4 0).2.1 (by decide) (by decide)⟩

theorem isOk_bind {ε α β : Type} {x : Except ε α} {f : α → Except ε β}
    (h : (x >>= f).isOk = true) : ∃ a, x = .ok a ∧ (f a).isOk = true := by
  cases x with
  | error e => rw [bind_error_eq] at h; exact absurd h (by simp [Except.isOk, Except.toBool])
  | ok a => exact ⟨a, rfl, by rwa [bind_ok_eq] at h⟩

/-- C1 counterexample: the returned record's `key` field is the
*normalized* key, not the key string passed in: for input key `"db"`
the field holds `"C#"`. -/
theorem generateChordProgressions_key_counterexample :
    Except.map ProgressionsResult.key (generateChordProgressions "db" ScaleType.major 0) =
      .ok "C#" ∧ ("C#" : String) ≠ "db" := by decide

/-- C1 (amended): whenever `generateChordProgressions` succeeds with a
capo in `[0,11]`, the record's `key` field is the *normalized* input
key, `capo` is the capo amount, `capoKey` is the normalized key shifted
by `capo` semitones via `shiftNote`, and `scale` is built from the capo
key; concretely, key `"C"` major with capo 2 yields capo key `"D"` and
scale `D E F# G A B C#`. -/
theorem generateChordProgressions_fields (key : String) (t : ScaleType) (capo : Int)
    (hc0 : 0 ≤ capo) (hc1 : capo ≤ 11)
    (hok : (generateChordProgressions key t capo).isOk = true) :
    Except.map ProgressionsResult.key (generateChordProgressions key t capo) =
      .ok (normalizeKey key) ∧
    Except.map ProgressionsResult.capo (generateChordProgressions key t capo) = .ok capo ∧
    Except.map ProgressionsResult.capoKey (generateChordProgressions key t capo) =
      shiftNote (normalizeKey key) capo ∧
    Except.map ProgressionsResult.scale (generateChordProgressions key t capo) =
      capoScale key t capo ∧
    Except.map ProgressionsResult.capoKey (generateChordProgressions "C" ScaleType.major 2) =
      .ok "D" ∧
    Except.map ProgressionsResult.scale (generateChordProgressions "C" ScaleType.major 2) =
      .ok ["D", "E", "F#", "G", "A", "B", "C#"] := by
  unfold generateChordProgressions at hok
  obtain ⟨ck, hck, hok⟩ := isOk_bind hok
  obtain ⟨sc, hsc, hok⟩ := isOk_bind hok
  obtain ⟨pr, hpr, -⟩ := isOk_bind hok
  unfold generateChordProgressions capoScale
  simp only [pure_eq_ok] at hpr
  simp only [hck, bind_ok_eq, hsc, pure_eq_ok]
  rw [hpr]
  simp only [bind_ok_eq, Except.map]
  exact ⟨trivial, trivial, trivial, trivial, by decide, by decide⟩

theorem generateChordProgressions_fields_witness :
    ((0 : Int) ≤ 2) ∧ ((2 : Int) ≤ 11) ∧
    ((generateChordProgressions "C" ScaleType.major 2).isOk = true) ∧
    (Except.map ProgressionsResult.key (generateChordProgressions "C" ScaleType.major 2) =
       .ok (normalizeKey "C") ∧
     Except.map ProgressionsResult.capo (generateChordProgressions "C" ScaleType.major 2) =
       .ok 2 ∧
     Except.map ProgressionsResult.capoKey (generateChordProgressions "C" ScaleType.major 2) =
       shiftNote (normalizeKey "C") 2 ∧
     Except.map ProgressionsResult.scale (generateChordProgressions "C" ScaleType.major 2) =
       capoScale "C" ScaleType.major 2 ∧
     Except.map ProgressionsResult.capoKey (generateChordProgressions "C" ScaleType.major 2) =
       .ok "D" ∧
     Except.map ProgressionsResult.scale (generateChordProgressions "C" ScaleType.major 2) =
       .ok ["D", "E", "F#", "G", "A", "B", "C#"]) :=
  ⟨by decide, by decide, by decide,
    generateChordProgressions_fields "C" ScaleType.major 2 (by decide) (by decide) (by decide)⟩

/-- C8: on a 7-entry duplicate-free scale, the triad of degree `d` in
1..7 consists of the scale members at positions `d-1`, `(d-1+2) mod 7`
and `(d-1+4) mod 7` (at the fixed octave), three distinct pitch classes
each drawn from the scale. -/
theorem buildChordTriad_distinct_tones (scale : List String) (d : Nat) (c : Chord)
    (hlen : scale.length = 7) (hnd : scale.Nodup) (hd1 : 1 ≤ d) (hd7 : d ≤ 7)
    (h : buildChordTriad scale d 4 = .ok c) :
    c.notes = [scale.getD (d - 1) "" ++ "4", scale.getD ((d - 1 + 2) % 7) "" ++ "4",
               scale.getD ((d - 1 + 4) % 7) "" ++ "4"] ∧
    scale.getD (d - 1) "" ∈ scale ∧
    scale.getD ((d - 1 + 2) % 7) "" ∈ scale ∧
    scale.getD ((d - 1 + 4) % 7) "" ∈ scale ∧
    scale.getD (d - 1) "" ≠ scale.getD ((d - 1 + 2) % 7) "" ∧
    scale.getD (d - 1) "" ≠ scale.getD ((d - 1 + 4) % 7) "" ∧
    scale.getD ((d - 1 + 2) % 7) "" ≠ scale.getD ((d - 1 + 4) % 7) "" := by
  refine ⟨?_, getD_mem_of_lt (by omega), getD_mem_of_lt (by omega), getD_mem_of_lt (by omega),
    getD_ne_getD_of_nodup hnd (by omega) (by omega) (by omega),
    getD_ne_getD_of_nodup hnd (by omega) (by omega) (by omega),
    getD_ne_getD_of_nodup hnd (by omega) (by omega) (by omega)⟩
  unfold buildChordTriad at h
  cases hg0 : getNoteIndex (scale.getD 0 "") with
  | error e => rw [hg0, bind_error_eq] at h; exact absurd h (by simp)
  | ok i0 =>
  rw [hg0, bind_ok_eq] at h
  cases hg2 : getNoteIndex (scale.getD 2 "") with
  | error e => rw [hg2, bind_error_eq] at h; exact absurd h (by simp)
  | ok i2 =>
  rw [hg2, bind_ok_eq, pure_eq_ok] at h
  injection h with h
  rw [← h]
  rfl

theorem buildChordTriad_distinct_tones_witness :
    ((["C", "D", "E", "F", "G", "A", "B"] : List String).length = 7) ∧
    (["C", "D", "E", "F", "G", "A", "B"] : List String).Nodup ∧ (1 ≤ 2 ∧ 2 ≤ 7) ∧
    (buildChordTriad ["C", "D", "E", "F", "G", "A", "B"] 2 4 =
      .ok ⟨2, "Dm", ["D4", "F4", "A4"]⟩) ∧
    ((⟨2, "Dm", ["D4", "F4", "A4"]⟩ : Chord).notes =
       [(["C", "D", "E", "F", "G", "A", "B"] : List String).getD (2 - 1) "" ++ "4",
        (["C", "D", "E", "F", "G", "A", "B"] : List String).getD ((2 - 1 + 2) % 7) "" ++ "4",
        (["C", "D", "E", "F", "G", "A", "B"] : List String).getD ((2 - 1 + 4) % 7) "" ++ "4"] ∧
     (["C", "D", "E", "F", "G", "A", "B"] : List String).getD (2 - 1) "" ∈
       (["C", "D", "E", "F", "G", "A", "B"] : List String) ∧
     (["C", "D", "E", "F", "G", "A", "B"] : List String).getD ((2 - 1 + 2) % 7) "" ∈
       (["C", "D", "E", "F", "G", "A", "B"] : List String) ∧
     (["C", "D", "E", "F", "G", "A", "B"] : List String).getD ((2 - 1 + 4) % 7) "" ∈
       (["C", "D", "E", "F", "G", "A", "B"] : List String) ∧
     (["C", "D", "E", "F", "G", "A", "B"] : List String).getD (2 - 1) "" ≠
       (["C", "D", "E", "F", "G", "A", "B"] : List String).getD ((2 - 1 + 2) % 7) "" ∧
     (["C", "D", "E", "F", "G", "A", "B"] : List String).getD (2 - 1) "" ≠
       (["C", "D", "E", "F", "G", "A", "B"] : List String).getD ((2 - 1 + 4) % 7) "" ∧
     (["C", "D", "E", "F", "G", "A", "B"] : List String).getD ((2 - 1 + 2) % 7) "" ≠
       (["C", "D", "E", "F", "G", "A", "B"] : List String).getD ((2 - 1 + 4) % 7) "") :=
  ⟨by decide, by decide, ⟨by decide, by decide⟩, by decide,
    buildChordTriad_distinct_tones ["C", "D", "E", "F", "G", "A", "B"] 2
      ⟨2, "Dm", ["D4", "F4", "A4"]⟩ (by decide) (by decide) (by decide) (by decide) (by decide)⟩

theorem eq_ok_bind {ε α β : Type} {x : Except ε α} {f : α → Except ε β} {b : β}
    (h : x >>= f = .ok b) : ∃ a, x = .ok a ∧ f a = .ok b := by
  cases x with
  | error e => rw [bind_error_eq] at h; exact absurd h (by simp)
  | ok a => exact ⟨a, rfl, by rwa [bind_ok_eq] at h⟩

theorem makeMelodyNote_ok {scale : List String} {chord : Chord} {r : RandPick} {beat : Nat}
    {n : MelodyNote} (h : makeMelodyNote scale chord r beat = .ok n) :
    n.note = pickPitch scale chord r ∧ n.duration = 1 ∧ n.beat = beat ∧
    convertNoteToTab (pickPitch scale chord r) = .ok n.tab := by
  unfold makeMelodyNote at h
  obtain ⟨tab, htab, hp⟩ := eq_ok_bind h
  rw [pure_eq_ok] at hp
  injection hp with hp
  rw [← hp]
  exact ⟨rfl, rfl, rfl, htab⟩

theorem barNotes_ok {scale : List String} {chord : Chord} {g : Nat → RandPick} {b : Nat}
    {l : List MelodyNote} (h : barNotes scale chord g b = .ok l) :
    ∃ n0 n1 n2 n3, l = [n0, n1, n2, n3] ∧
      makeMelodyNote scale chord (g b) b = .ok n0 ∧
      makeMelodyNote scale chord (g (b + 1)) (b + 1) = .ok n1 ∧
      makeMelodyNote scale chord (g (b + 2)) (b + 2) = .ok n2 ∧
      makeMelodyNote scale chord (g (b + 3)) (b + 3) = .ok n3 := by
  unfold barNotes at h
  obtain ⟨n0, h0, h⟩ := eq_ok_bind h
  obtain ⟨n1, h1, h⟩ := eq_ok_bind h
  obtain ⟨n2, h2, h⟩ := eq_ok_bind h
  obtain ⟨n3, h3, h⟩ := eq_ok_bind h
  rw [pure_eq_ok] at h
  injection h with h
  exact ⟨n0, n1, n2, n3, h.symm, h0, h1, h2, h3⟩

theorem melodyLoop_shape (scale : List String) (g : Nat → RandPick) :
    ∀ (names : List String) (b : Nat) (out : List MelodyNote),
      melodyLoop scale g names b = .ok out →
      out.length = 4 * names.length ∧
      out.map MelodyNote.beat = List.range' b (4 * names.length) ∧
      out.map MelodyNote.duration = List.replicate (4 * names.length) 1
  | [], b, out, h => by
    injection h with h
    rw [← h]
    exact ⟨rfl, rfl, rfl⟩
  | name :: rest, b, out, h => by
    unfold melodyLoop at h
    obtain ⟨chord, hch, h⟩ := eq_ok_bind h
    obtain ⟨bar, hbar, h⟩ := eq_ok_bind h
    obtain ⟨tail, htail, h⟩ := eq_ok_bind h
    rw [pure_eq_ok] at h
    injection h with h
    obtain ⟨n0, n1, n2, n3, rfl, h0, h1, h2, h3⟩ := barNotes_ok hbar
    obtain ⟨hlen, hbeat, hdur⟩ := melodyLoop_shape scale g rest (b + 4) tail htail
    have e4 : 4 * (name :: rest).length = 4 * rest.length + 4 := by
      simp [List.length_cons]; ring
    have hr : List.range' b (4 * rest.length + 4) =
        List.range' b 4 ++ List.range' (b + 4) (4 * rest.length) := by
      have hap := List.range'_append b 4 (4 * rest.length) 1
      simp only [Nat.one_mul] at hap
      exact hap.symm
    have hrep : List.replicate (4 * rest.length + 4) (1 : Nat) =
        List.replicate 4 1 ++ List.replicate (4 * rest.length) 1 := by
      rw [Nat.add_comm, List.replicate_add]
    subst h
    refine ⟨by simp [hlen]; ring, ?_, ?_⟩
    · rw [e4, hr]
      simp only [List.map_append, List.map_cons, List.map_nil, hbeat]
      have b0 := (makeMelodyNote_ok h0).2.2.1
      have b1 := (makeMelodyNote_ok h1).2.2.1
      have b2 := (makeMelodyNote_ok h2).2.2.1
      have b3 := (makeMelodyNote_ok h3).2.2.1
      rw [b0, b1, b2, b3]
      simp [List.range']
    · rw [e4, hrep]
      simp only [List.map_append, List.map_cons, List.map_nil, hdur]
      have d0 := (makeMelodyNote_ok h0).2.1
      have d1 := (makeMelodyNote_ok h1).2.1
      have d2 := (makeMelodyNote_ok h2).2.1
      have d3 := (makeMelodyNote_ok h3).2.1
      rw [d0, d1, d2, d3]
      rfl

/-- C3: a successful melody for `N` chord names has exactly `4N` notes,
whose `beat` fields are exactly `0, 1, ..., 4N-1` in output order, each
with duration 1. -/
theorem generateMelodyForProgression_shape (key : String) (t : ScaleType)
    (chordNames : List String) (g : Nat → RandPick) (notes : List MelodyNote)
    (h : generateMelodyForProgression key t chordNames g = .ok notes) :
    notes.length = 4 * chordNames.length ∧
    notes.map MelodyNote.beat = List.range (4 * chordNames.length) ∧
    notes.map MelodyNote.duration = List.replicate (4 * chordNames.length) 1 := by
  unfold generateMelodyForProgression at h
  obtain ⟨scale, hsc, h⟩ := eq_ok_bind h
  obtain ⟨hlen, hbeat, hdur⟩ := melodyLoop_shape scale g chordNames 0 notes h
  exact ⟨hlen, by rw [hbeat, List.range_eq_range' (4 * chordNames.length)], hdur⟩


theorem generateMelodyForProgression_shape_witness :
    (generateMelodyForProgression "C" ScaleType.major ["C"] constPick =
      .ok [⟨"C4", 1, 0, ⟨2, 1, "String 2, fret 1"⟩⟩, ⟨"C4", 1, 1, ⟨2, 1, "String 2, fret 1"⟩⟩,
           ⟨"C4", 1, 2, ⟨2, 1, "String 2, fret 1"⟩⟩, ⟨"C4", 1, 3, ⟨2, 1, "String 2, fret 1"⟩⟩]) ∧
    (([⟨"C4", 1, 0, ⟨2, 1, "String 2, fret 1"⟩⟩, ⟨"C4", 1, 1, ⟨2, 1, "String 2, fret 1"⟩⟩,
       ⟨"C4", 1, 2, ⟨2, 1, "String 2, fret 1"⟩⟩, ⟨"C4", 1, 3, ⟨2, 1, "String 2, fret 1"⟩⟩] :
        List MelodyNote).length = 4 * (["C"] : List String).length ∧
     ([⟨"C4", 1, 0, ⟨2, 1, "String 2, fret 1"⟩⟩, ⟨"C4", 1, 1, ⟨2, 1, "String 2, fret 1"⟩⟩,
       ⟨"C4", 1, 2, ⟨2, 1, "String 2, fret 1"⟩⟩, ⟨"C4", 1, 3, ⟨2, 1, "String 2, fret 1"⟩⟩] :
        List MelodyNote).map MelodyNote.beat = List.range (4 * (["C"] : List String).length) ∧
     ([⟨"C4", 1, 0, ⟨2, 1, "String 2, fret 1"⟩⟩, ⟨"C4", 1, 1, ⟨2, 1, "String 2, fret 1"⟩⟩,
       ⟨"C4", 1, 2, ⟨2, 1, "String 2, fret 1"⟩⟩, ⟨"C4", 1, 3, ⟨2, 1, "String 2, fret 1"⟩⟩] :
        List MelodyNote).map MelodyNote.duration =
       List.replicate (4 * (["C"] : List String).length) 1) :=
  ⟨by decide,
    generateMelodyForProgression_shape "C" ScaleType.major ["C"] constPick
      [⟨"C4", 1, 0, ⟨2, 1, "String 2, fret 1"⟩⟩, ⟨"C4", 1, 1, ⟨2, 1, "String 2, fret 1"⟩⟩,
       ⟨"C4", 1, 2, ⟨2, 1, "String 2, fret 1"⟩⟩, ⟨"C4", 1, 3, ⟨2, 1, "String 2, fret 1"⟩⟩]
      (by decide)⟩


theorem buildScale_mem_chromatic {r : String} {t : ScaleType} {scale : List String}
    (h : buildScale r t = .ok scale) :
    scale.length = 7 ∧ ∀ x ∈ scale, x ∈ CHROMATIC := by
  unfold buildScale at h
  obtain ⟨i, hi, h⟩ := eq_ok_bind h
  rw [pure_eq_ok] at h
  injection h with h
  constructor
  · rw [← h]; cases t <;> rfl
  · intro x hx
    rw [← h] at hx
    simp only [List.mem_map] at hx
    obtain ⟨s, hs, rfl⟩ := hx
    refine getD_mem_of_lt ?_
    have : (i + s) % 12 < 12 := Nat.mod_lt _ (by omega)
    simpa [CHROMATIC] using this

theorem buildChordTriad_notes {scale : List String} {d : Nat} {c : Chord}
    (h : buildChordTriad scale d 4 = .ok c) :
    c.notes = [scale.getD (d - 1) "" ++ "4", scale.getD ((d - 1 + 2) % 7) "" ++ "4",
               scale.getD ((d - 1 + 4) % 7) "" ++ "4"] := by
  unfold buildChordTriad at h
  obtain ⟨i0, hg0, h⟩ := eq_ok_bind h
  obtain ⟨i2, hg2, h⟩ := eq_ok_bind h
  rw [pure_eq_ok] at h
  injection h with h
  rw [← h]
  rfl

theorem getChordForName_notes_from_scale {scale : List String} {name : String} {c : Chord}
    (hlen : scale.length = 7) (h : getChordForName scale name = .ok c) :
    c.notes.length = 3 ∧ ∀ x ∈ c.notes, ∃ p ∈ scale, x = p ++ "4" := by
  have main : ∀ d, 1 ≤ d → d ≤ 7 → buildChordTriad scale d 4 = .ok c →
      c.notes.length = 3 ∧ ∀ x ∈ c.notes, ∃ p ∈ scale, x = p ++ "4" := by
    intro d hd1 hd7 hbt
    have hn := buildChordTriad_notes hbt
    constructor
    · rw [hn]; rfl
    · intro x hx
      rw [hn] at hx
      simp only [List.mem_cons, List.not_mem_nil, or_false] at hx
      rcases hx with rfl | rfl | rfl
      · exact ⟨_, getD_mem_of_lt (by omega), rfl⟩
      · exact ⟨_, getD_mem_of_lt (by omega), rfl⟩
      · exact ⟨_, getD_mem_of_lt (by omega), rfl⟩
  unfold getChordForName at h
  cases hf : scale.findIdx? (fun n => n == bareRoot name) with
  | none => rw [hf] at h; exact main 1 (by omega) (by omega) h
  | some deg =>
    rw [hf] at h
    have hdeg : deg < 7 := by
      rw [List.findIdx?_eq_some_iff_getElem] at hf
      obtain ⟨hlt, -⟩ := hf
      omega
    exact main (deg + 1) (by omega) (by omega) h

theorem sliceDropLast_append_four (p : String) : sliceDropLast (p ++ "4") = p := by
  unfold sliceDropLast
  have h : (p ++ "4").toList = p.toList ++ ['4'] := by
    simp [String.toList, String.data_append]
  rw [h, List.dropLast_concat]
  rfl

theorem wellFormed_of_mem4 {p : String} (hp : p ∈ CHROMATIC) :
    melodyNoteWellFormed (p ++ "4") = true := by
  simp only [melodyNoteWellFormed, List.any_eq_true]
  exact ⟨p, hp, by simp⟩

theorem wellFormed_of_mem5 {p : String} (hp : p ∈ CHROMATIC) :
    melodyNoteWellFormed (p ++ "5") = true := by
  simp only [melodyNoteWellFormed, List.any_eq_true]
  exact ⟨p, hp, by simp⟩

theorem pickPitch_wellFormed {scale : List String} {chord : Chord} (r : RandPick)
    (hs7 : scale.length = 7) (hsc : ∀ x ∈ scale, x ∈ CHROMATIC)
    (hch3 : chord.notes.length = 3) (hchw : ∀ x ∈ chord.notes, ∃ p ∈ scale, x = p ++ "4") :
    melodyNoteWellFormed (pickPitch scale chord r) = true := by
  have hoct : melodyOctaves.getD (r.octIdx % melodyOctaves.length) 0 = 4 ∨
      melodyOctaves.getD (r.octIdx % melodyOctaves.length) 0 = 5 := by
    have h2 : r.octIdx % melodyOctaves.length = 0 ∨ r.octIdx % melodyOctaves.length = 1 := by
      show r.octIdx % 2 = 0 ∨ r.octIdx % 2 = 1
      omega
    rcases h2 with h | h <;> rw [h]
    · exact Or.inl rfl
    · exact Or.inr rfl
  unfold pickPitch
  by_cases hu : r.useChord = true
  · simp only [hu, if_true]
    have hm : chord.notes.getD (r.toneIdx % chord.notes.length) "" ∈ chord.notes := by
      refine getD_mem_of_lt ?_
      exact Nat.mod_lt _ (by omega)
    obtain ⟨p, hp, he⟩ := hchw _ hm
    rw [he, sliceDropLast_append_four]
    rcases hoct with h | h <;> rw [h]
    · exact wellFormed_of_mem4 (hsc p hp)
    · exact wellFormed_of_mem5 (hsc p hp)
  · simp only [hu, if_false]
    have hm : scale.getD (r.toneIdx % scale.length) "" ∈ scale := by
      refine getD_mem_of_lt ?_
      exact Nat.mod_lt _ (by omega)
    rcases hoct with h | h <;> rw [h]
    · exact wellFormed_of_mem4 (hsc _ hm)
    · exact wellFormed_of_mem5 (hsc _ hm)

theorem wellFormed_tab_bounds (note : String) (hw : melodyNoteWellFormed note = true) :
    semitoneAtLeast48 note = true ∧ (convertNoteToTab note).isOk = true ∧
    1 ≤ (tabValue note).stringNumber ∧ (tabValue note).stringNumber ≤ 6 ∧
    0 ≤ (tabValue note).fret := by
  simp only [melodyNoteWellFormed, List.any_eq_true] at hw
  obtain ⟨p, hp, hor⟩ := hw
  simp only [Bool.or_eq_true, beq_iff_eq] at hor
  rw [mem_CHROMATIC_iff] at hp
  rcases hp with rfl|rfl|rfl|rfl|rfl|rfl|rfl|rfl|rfl|rfl|rfl|rfl <;>
    (rcases hor with rfl | rfl <;> decide)

theorem melodyLoop_note_wf (scale : List String) (g : Nat → RandPick)
    (hs7 : scale.length = 7) (hsc : ∀ x ∈ scale, x ∈ CHROMATIC) :
    ∀ (names : List String) (b : Nat) (out : List MelodyNote),
      melodyLoop scale g names b = .ok out →
      ∀ n ∈ out, melodyNoteWellFormed n.note = true ∧ convertNoteToTab n.note = .ok n.tab
  | [], b, out, h => by
    injection h with h
    rw [← h]
    intro n hn
    exact absurd hn (List.not_mem_nil n)
  | name :: rest, b, out, h => by
    unfold melodyLoop at h
    obtain ⟨chord, hch, h⟩ := eq_ok_bind h
    obtain ⟨bar, hbar, h⟩ := eq_ok_bind h
    obtain ⟨tail, htail, h⟩ := eq_ok_bind h
    rw [pure_eq_ok] at h
    injection h with h
    obtain ⟨n0, n1, n2, n3, rfl, h0, h1, h2, h3⟩ := barNotes_ok hbar
    obtain ⟨hc3, hcw⟩ := getChordForName_notes_from_scale hs7 hch
    have ih := melodyLoop_note_wf scale g hs7 hsc rest (b + 4) tail htail
    subst h
    intro n hn
    have single : ∀ (r : RandPick) (bb : Nat) (m : MelodyNote),
        makeMelodyNote scale chord r bb = .ok m →
        melodyNoteWellFormed m.note = true ∧ convertNoteToTab m.note = .ok m.tab := by
      intro r bb m hm
      obtain ⟨hnote, -, -, htab⟩ := makeMelodyNote_ok hm
      rw [hnote]
      exact ⟨pickPitch_wellFormed r hs7 hsc hc3 hcw, htab⟩
    simp only [List.cons_append, List.nil_append, List.mem_cons] at hn
    rcases hn with rfl | rfl | rfl | rfl | hn
    · exact single _ _ _ h0
    · exact single _ _ _ h1
    · exact single _ _ _ h2
    · exact single _ _ _ h3
    · exact ih n hn

/-- C10: every note a successful melody emits is a canonical pitch
class at octave 4 or 5 (absolute semitone at least 48), so its attached
tab always has a string number in 1..6 and a non-negative fret: the
out-of-range sentinel is unreachable from melody output. -/
theorem melody_tab_always_in_range (key : String) (t : ScaleType)
    (chordNames : List String) (g : Nat → RandPick) (notes : List MelodyNote)
    (n : MelodyNote) (h : generateMelodyForProgression key t chordNames g = .ok notes)
    (hn : n ∈ notes) :
    melodyNoteWellFormed n.note = true ∧ semitoneAtLeast48 n.note = true ∧
    1 ≤ n.tab.stringNumber ∧ n.tab.stringNumber ≤ 6 ∧ 0 ≤ n.tab.fret ∧
    n.tab ≠ ⟨0, -1, "(out of range)"⟩ := by
  unfold generateMelodyForProgression at h
  obtain ⟨scale, hsc, h⟩ := eq_ok_bind h
  obtain ⟨hs7, hmem⟩ := buildScale_mem_chromatic hsc
  obtain ⟨hwf, htab⟩ := melodyLoop_note_wf scale g hs7 hmem chordNames 0 notes h n hn
  obtain ⟨hs48, hok, hb1, hb2, hb3⟩ := wellFormed_tab_bounds n.note hwf
  have htv : tabValue n.note = n.tab := by
    unfold tabValue
    rw [htab]
    rfl
  rw [htv] at hb1 hb2 hb3
  refine ⟨hwf, hs48, hb1, hb2, hb3, ?_⟩
  intro e
  rw [e] at hb1
  exact absurd hb1 (by decide)

theorem melody_tab_always_in_range_witness :
    (generateMelodyForProgression "A" ScaleType.minor ["Am"] constPick =
      .ok [⟨"A4", 1, 0, ⟨1, 5, "String 1, fret 5"⟩⟩, ⟨"A4", 1, 1, ⟨1, 5, "String 1, fret 5"⟩⟩,
           ⟨"A4", 1, 2, ⟨1, 5, "String 1, fret 5"⟩⟩, ⟨"A4", 1, 3, ⟨1, 5, "String 1, fret 5"⟩⟩]) ∧
    ((⟨"A4", 1, 0, ⟨1, 5, "String 1, fret 5"⟩⟩ : MelodyNote) ∈
      ([⟨"A4", 1, 0, ⟨1, 5, "String 1, fret 5"⟩⟩, ⟨"A4", 1, 1, ⟨1, 5, "String 1, fret 5"⟩⟩,
        ⟨"A4", 1, 2, ⟨1, 5, "String 1, fret 5"⟩⟩, ⟨"A4", 1, 3, ⟨1, 5, "String 1, fret 5"⟩⟩] :
        List MelodyNote)) ∧
    (melodyNoteWellFormed (⟨"A4", 1, 0, ⟨1, 5, "String 1, fret 5"⟩⟩ : MelodyNote).note = true ∧
     semitoneAtLeast48 (⟨"A4", 1, 0, ⟨1, 5, "String 1, fret 5"⟩⟩ : MelodyNote).note = true ∧
     1 ≤ (⟨"A4", 1, 0, ⟨1, 5, "String 1, fret 5"⟩⟩ : MelodyNote).tab.stringNumber ∧
     (⟨"A4", 1, 0, ⟨1, 5, "String 1, fret 5"⟩⟩ : MelodyNote).tab.stringNumber ≤ 6 ∧
     0 ≤ (⟨"A4", 1, 0, ⟨1, 5, "String 1, fret 5"⟩⟩ : MelodyNote).tab.fret ∧
     (⟨"A4", 1, 0, ⟨1, 5, "String 1, fret 5"⟩⟩ : MelodyNote).tab ≠ ⟨0, -1, "(out of range)"⟩) :=
  ⟨by decide, by decide,
    melody_tab_always_in_range "A" ScaleType.minor ["Am"] constPick
      [⟨"A4", 1, 0, ⟨1, 5, "String 1, fret 5"⟩⟩, ⟨"A4", 1, 1, ⟨1, 5, "String 1, fret 5"⟩⟩,
       ⟨"A4", 1, 2, ⟨1, 5, "String 1, fret 5"⟩⟩, ⟨"A4", 1, 3, ⟨1, 5, "String 1, fret 5"⟩⟩]
      ⟨"A4", 1, 0, ⟨1, 5, "String 1, fret 5"⟩⟩ (by decide) (by decide)⟩
